import Mathlib

/-!
Verification of the Insta-Mock Resource Store & Dynamic REST Engine
(internal/server/watcher.go and internal/server/chaos.go).

A dynamically-typed JSON value is embedded as the inductive `JVal`; a
Record (Go: map[string]interface{}) is an association list of fields; the
Store (Go: map[string][]map[string]interface{}) is an association list of
resource collections.  Go map reads of a missing key yield the zero value,
which `getCol` mirrors by returning the empty collection.  Randomness
(uuid generation, chaos draws) is threaded as explicit parameters.
-/

namespace InstaMock

/-- A JSON value, as produced by Go's encoding/json into interface\x7b\x7d.
Numbers are modelled as integers; no claim depends on float behaviour. -/
inductive JVal where
  | str (s : String)
  | num (n : Int)
  | boolean (b : Bool)
  | null
  | arr (xs : List JVal)
  | obj (fields : List (String × JVal))
  deriving Repr

/-- Whether a value is a JSON string (the type the id invariant asks for). -/
def JVal.isStr : JVal → Bool
  | .str _ => true
  | _ => false

mutual
/-- Go's fmt.Sprintf with verb v, as used throughout watcher.go to
stringify dynamic field values for comparison, search and sorting. -/
def stringify : JVal → String
  | .str s => s
  | .num n => toString n
  | .boolean b => if b then "true" else "false"
  | .null => "<nil>"
  | .arr xs => "[" ++ String.intercalate " " (stringifyList xs) ++ "]"
  | .obj fs => "map[" ++ String.intercalate " " (stringifyFields fs) ++ "]"

def stringifyList : List JVal → List String
  | [] => []
  | x :: xs => stringify x :: stringifyList xs

def stringifyFields : List (String × JVal) → List String
  | [] => []
  | (k, v) :: xs => (k ++ ":" ++ stringify v) :: stringifyFields xs
end

/-- A Record: one JSON-object-shaped entity (Go: map[string]interface\x7b\x7d),
embedded as an association list; lookups find the first binding. -/
abbrev Record := List (String × JVal)

/-- Go map read m[k]: the first binding of k, if any. -/
def lookupField : Record → String → Option JVal
  | [], _ => none
  | (k, v) :: rest, key => if k == key then some v else lookupField rest key

/-- Go map write m[k] = v: overwrite the binding if present, add it if new. -/
def setField : Record → String → JVal → Record
  | [], key, val => [(key, val)]
  | (k, v) :: rest, key, val =>
    if k == key then (key, val) :: rest else (k, v) :: setField rest key val

/-- The Store: resource name to ordered Record sequence. -/
abbrev Store := List (String × List Record)

/-- Go map read e.store[resource]; a missing resource yields the nil slice. -/
def getCol : Store → String → List Record
  | [], _ => []
  | (k, items) :: rest, key => if k == key then items else getCol rest key

/-- Go map write e.store[resource] = items. -/
def setCol : Store → String → List Record → Store
  | [], key, items => [(key, items)]
  | (k, v) :: rest, key, items =>
    if k == key then (key, items) :: rest else (k, v) :: setCol rest key items

/-! ### String helpers used by the handlers (strings.ToLower, strings.Contains) -/

/-- strings.ToLower, on the character list of a string. -/
def lowerChars (s : String) : List Char :=
  s.data.map Char.toLower

/-- Whether sub occurs at the start of s. -/
def isPrefixChars : List Char → List Char → Bool
  | [], _ => true
  | _ :: _, [] => false
  | a :: as, b :: bs => a == b && isPrefixChars as bs

/-- strings.HasPrefix on whole strings. -/
def strStartsWith (s pre : String) : Bool :=
  isPrefixChars pre.data s.data

/-- strings.Contains: sub occurs somewhere in s. -/
def containsChars (s sub : List Char) : Bool :=
  match s with
  | [] => sub.isEmpty
  | _ :: rest => isPrefixChars sub s || containsChars rest sub

/-! ### Query parameters -/

/-- The parsed query string: parameter name to value pairs. -/
abbrev QueryMap := List (String × String)

/-- c.Query(key, dflt): the value of a parameter, or the default. -/
def queryGet (qs : QueryMap) (key dflt : String) : String :=
  match qs with
  | [] => dflt
  | (k, v) :: rest => if k == key then v else queryGet rest key dflt

/-- Digit run of strconv.Atoi: all remaining characters must be digits. -/
def parseDigitsAux (acc : Nat) : List Char → Option Nat
  | [] => some acc
  | c :: rest =>
    if c.isDigit then parseDigitsAux (acc * 10 + (c.toNat - 48)) rest
    else none

/-- strconv.Atoi: optional sign then at least one digit, nothing else. -/
def parseIntChars : List Char → Option Int
  | [] => none
  | '-' :: rest =>
    match rest with
    | [] => none
    | _ => (parseDigitsAux 0 rest).map fun m => -(m : Int)
  | '+' :: rest =>
    match rest with
    | [] => none
    | _ => (parseDigitsAux 0 rest).map fun m => (m : Int)
  | cs => (parseDigitsAux 0 cs).map fun m => (m : Int)

/-- Go's 64-bit int maximum, 2^63 - 1. -/
def Int64Max : Int := 9223372036854775807

/-- Go's 64-bit int minimum, -2^63. -/
def Int64Min : Int := -9223372036854775808

/-- strconv.Atoi on a value outside the 64-bit range reports ErrRange and
returns the nearest bound; the handlers discard the error and keep the
clamped value. -/
def clamp64 (n : Int) : Int :=
  if n > Int64Max then Int64Max
  else if n < Int64Min then Int64Min
  else n

/-- Two's-complement wraparound of Go's 64-bit int arithmetic. -/
def wrap64 (n : Int) : Int :=
  (n + 9223372036854775808) % 18446744073709551616 - 9223372036854775808

/-- strconv.Atoi combined with the discarded error: 0 when unparseable,
the clamped bound on range error, as in
page, _ := strconv.Atoi(c.Query(..., "0")). -/
def atoiOrZero (s : String) : Int :=
  match parseIntChars s.data with
  | none => 0
  | some n => clamp64 n

/-! ### The GET /resource pipeline (Engine.handleGetAll) -/

/-- One field of a record matches the lowered search term q when the
lowered stringified value contains it. -/
def fieldMatchesSearch (loweredQ : List Char) (v : JVal) : Bool :=
  containsChars (lowerChars (stringify v)) loweredQ

/-- A record is kept by the search when at least one field value matches. -/
def recordMatchesSearch (loweredQ : List Char) (item : Record) : Bool :=
  item.any fun kv => fieldMatchesSearch loweredQ kv.2

/-- Full-text search stage: a no-op for absent or empty q. -/
def searchStage (q : String) (items : List Record) : List Record :=
  if q == "" then items
  else items.filter (recordMatchesSearch (lowerChars q))

/-- One exact-match field filter: the record must have the field and its
stringified value must equal the parameter value. -/
def recordMatchesFilter (key value : String) (item : Record) : Bool :=
  match lookupField item key with
  | some v => stringify v == value
  | none => false

/-- Field-filter stage: every parameter not named q and not underscore-led
is an exact filter, applied sequentially (logical AND); a parameter with
an empty value is skipped (the len(values) > 0 guard). -/
def filterStage (qs : QueryMap) (items : List Record) : List Record :=
  qs.foldl
    (fun acc kv =>
      if strStartsWith kv.1 "_" || kv.1 == "q" then acc
      else if kv.2.length > 0 then acc.filter (recordMatchesFilter kv.1 kv.2)
      else acc)
    items

/-- Sort key: stringified value of the sort field; a record lacking the
field stringifies Go's nil interface as "<nil>". -/
def sortKey (sortField : String) (item : Record) : String :=
  stringify ((lookupField item sortField).getD JVal.null)

/-- The sort.Slice comparator: ascending string order, reversed by desc. -/
def sortLess (sortField order : String) (a b : Record) : Bool :=
  let va := sortKey sortField a
  let vb := sortKey sortField b
  if order == "desc" then decide (vb < va) else decide (va < vb)

/-- Insertion of one record into a sequence already sorted by less. -/
def insertSorted (less : Record → Record → Bool) (x : Record) :
    List Record → List Record
  | [] => [x]
  | y :: ys => if less x y then x :: y :: ys else y :: insertSorted less x ys

/-- Comparison sort by the given strict comparator (the element order of
ties is not part of the contract; Go's sort.Slice is unstable). -/
def sortRecords (less : Record → Record → Bool) : List Record → List Record
  | [] => []
  | x :: xs => insertSorted less x (sortRecords less xs)

/-- Sort stage: active only when _sort is present; _order defaults asc. -/
def sortStage (qs : QueryMap) (items : List Record) : List Record :=
  let sortField := queryGet qs "_sort" ""
  if sortField == "" then items
  else sortRecords (sortLess sortField (queryGet qs "_order" "asc")) items

/-- The List response: the JSON array plus the pagination headers
X-Total-Count, X-Page and X-Limit (set only when pagination applies). -/
structure ListResponse where
  body : List Record
  totalCount : Option Nat
  page : Option Int
  limit : Option Int

/-- Pagination stage: slice [start, end) with start = (page-1)*limit for
page > 0 else 0, end clamped to the length; empty when start exceeds the
length; headers reflect the pre-slice total.  The multiplications and
additions wrap as Go 64-bit int arithmetic does; a start or end that
violates the slice bounds (negative start, or end below start after
wraparound) makes items[start:end] panic, modelled as none. -/
def paginateStage (qs : QueryMap) (items : List Record) :
    Option ListResponse :=
  let page := atoiOrZero (queryGet qs "_page" "0")
  let limit := atoiOrZero (queryGet qs "_limit" "0")
  let totalItems := items.length
  if limit > 0 then
    let start : Int := if page > 0 then wrap64 ((page - 1) * limit) else 0
    let stop : Int := wrap64 (start + limit)
    if start > (items.length : Int) then
      some ⟨[], some totalItems, some page, some limit⟩
    else
      let stop := if stop > (items.length : Int) then (items.length : Int) else stop
      if 0 ≤ start ∧ start ≤ stop then
        some ⟨(items.drop start.toNat).take (stop - start).toNat,
          some totalItems, some page, some limit⟩
      else
        none
  else
    some ⟨items, none, none, none⟩

/-- Engine.handleGetAll: copy the collection, then search, field filters,
sort, paginate, in that fixed order; none is the pagination slice panic. -/
def handleGetAll (store : Store) (resource : String) (qs : QueryMap) :
    Option ListResponse :=
  let items := getCol store resource
  let items := searchStage (queryGet qs "q" "") items
  let items := filterStage qs items
  let items := sortStage qs items
  paginateStage qs items

/-- The handler as a state step: it reads the store (copying the record
sequence under the read lock) and never writes it back. -/
def handleGetAllStep (store : Store) (resource : String) (qs : QueryMap) :
    Option ListResponse × Store :=
  (handleGetAll store resource qs, store)

/-! ### CRUD handlers on a single record (watcher.go loops) -/

/-- The loop guard shared by get-by-id, update, patch and delete: the
record has an id field and its stringified value equals the path param. -/
def matchesId (pathId : String) (item : Record) : Bool :=
  match lookupField item "id" with
  | some itemID => stringify itemID == pathId
  | none => false

/-- A handler response: 200/201 with a record, 404 naming the resource and
id (the body also carries kind not_found and a formatted message), or 204. -/
inductive HandlerResp where
  | ok (record : Record)
  | created (record : Record)
  | noContent
  | notFound (resource id : String)

/-- Engine.handleGetByID's scan: the first record whose id stringifies
equal to the path parameter. -/
def findById (pathId : String) : List Record → Option Record
  | [] => none
  | item :: rest =>
    if matchesId pathId item then some item else findById pathId rest

/-- Engine.handleGetByID. -/
def handleGetByID (store : Store) (resource pathId : String) : HandlerResp :=
  match findById pathId (getCol store resource) with
  | some item => .ok item
  | none => .notFound resource pathId

/-- Engine.handleCreate on an already-parsed body: assign a fresh id when
the body lacks one, then append.  The id source g and counter n model
uuid.New().String(). -/
def handleCreate (g : Nat → String) (n : Nat) (store : Store)
    (resource : String) (body : Record) : (HandlerResp × Nat) × Store :=
  let (body, n) :=
    match lookupField body "id" with
    | some _ => (body, n)
    | none => (setField body "id" (JVal.str (g n)), n + 1)
  ((.created body, n), setCol store resource (getCol store resource ++ [body]))

/-- Engine.handleUpdate's loop: replace the first record whose id matches
with the body, forcing the body's id back to the stored record's id. -/
def updateList (pathId : String) (body : Record) :
    List Record → Option (Record × List Record)
  | [] => none
  | item :: rest =>
    match lookupField item "id" with
    | some itemID =>
      if stringify itemID == pathId then
        let replaced := setField body "id" itemID
        some (replaced, replaced :: rest)
      else
        (updateList pathId body rest).map fun p => (p.1, item :: p.2)
    | none =>
      (updateList pathId body rest).map fun p => (p.1, item :: p.2)

/-- Engine.handleUpdate (PUT) on an already-parsed body. -/
def handleUpdate (store : Store) (resource pathId : String) (body : Record) :
    HandlerResp × Store :=
  match updateList pathId body (getCol store resource) with
  | some (replaced, items) => (.ok replaced, setCol store resource items)
  | none => (.notFound resource pathId, store)

/-- The PATCH merge: every key in the body except id overwrites the
matching key of the record, added if new. -/
def mergePatch (body item : Record) : Record :=
  body.foldl (fun acc kv => if kv.1 == "id" then acc else setField acc kv.1 kv.2)
    item

/-- Engine.handlePatch's loop: merge the body into the first record whose
id matches. -/
def patchList (pathId : String) (body : Record) :
    List Record → Option (Record × List Record)
  | [] => none
  | item :: rest =>
    if matchesId pathId item then
      let merged := mergePatch body item
      some (merged, merged :: rest)
    else
      (patchList pathId body rest).map fun p => (p.1, item :: p.2)

/-- Engine.handlePatch (PATCH) on an already-parsed body. -/
def handlePatch (store : Store) (resource pathId : String) (body : Record) :
    HandlerResp × Store :=
  match patchList pathId body (getCol store resource) with
  | some (merged, items) => (.ok merged, setCol store resource items)
  | none => (.notFound resource pathId, store)

/-- Engine.handleDelete's loop: remove the first record whose id matches,
preserving the order of the rest (append(items[:i], items[i+1:]...)). -/
def deleteList (pathId : String) : List Record → Option (List Record)
  | [] => none
  | item :: rest =>
    if matchesId pathId item then some rest
    else (deleteList pathId rest).map (item :: ·)

/-- Engine.handleDelete. -/
def handleDelete (store : Store) (resource pathId : String) :
    HandlerResp × Store :=
  match deleteList pathId (getCol store resource) with
  | some items => (.noContent, setCol store resource items)
  | none => (.notFound resource pathId, store)

/-! ### Ingestion (Engine.normalizeData / Engine.ReloadData) -/

/-- Assign a missing id: if _, hasID := m[id]; !hasID then m[id] = uuid. -/
def assignId (g : Nat → String) (n : Nat) (m : Record) : Record × Nat :=
  match lookupField m "id" with
  | some _ => (m, n)
  | none => (setField m "id" (JVal.str (g n)), n + 1)

/-- Normalize one top-level array value: keep only the elements that are
objects, assigning ids to those lacking one. -/
def normalizeItems (g : Nat → String) (n : Nat) :
    List JVal → List Record × Nat
  | [] => ([], n)
  | .obj m :: rest =>
    let (m, n) := assignId g n m
    let (items, n) := normalizeItems g n rest
    (m :: items, n)
  | _ :: rest => normalizeItems g n rest

/-- The shared ingestion loop of normalizeData and ReloadData: an array
value becomes a collection, an object value a one-element collection, any
other top-level value type is skipped. -/
def ingestInto (g : Nat → String) (n : Nat) (store : Store) :
    List (String × JVal) → Store × Nat
  | [] => (store, n)
  | (key, .arr v) :: rest =>
    let (items, n) := normalizeItems g n v
    ingestInto g n (setCol store key items) rest
  | (key, .obj m) :: rest =>
    let (m, n) := assignId g n m
    ingestInto g n (setCol store key [m]) rest
  | (_, _) :: rest => ingestInto g n store rest

/-- Engine.normalizeData, run at construction on the empty store. -/
def normalizeData (g : Nat → String) (n : Nat)
    (data : List (String × JVal)) : Store × Nat :=
  ingestInto g n [] data

/-- Engine.ReloadData: clears the existing store then reloads from the new
data; the old store contributes nothing. -/
def ReloadData (g : Nat → String) (n : Nat)
    (data : List (String × JVal)) (_old : Store) : Store × Nat :=
  let cleared : Store := []
  ingestInto g n cleared data

/-! ### Reload Controller (Watcher.reload) -/

/-- The outcome of one reload attempt: the error reported to the observer
(none on success) and the store afterwards. -/
structure ReloadOutcome where
  err : Option String
  store : Store
  ctr : Nat

/-- Watcher.reload on raw file contents: json.Unmarshal into an object is
modelled by the parse parameter; on parse failure the reload aborts before
touching the engine, on success Engine.ReloadData replaces the store. -/
def reload (parse : String → Option (List (String × JVal)))
    (g : Nat → String) (n : Nat) (raw : String) (cur : Store) :
    ReloadOutcome :=
  match parse raw with
  | none => ⟨some "invalid JSON", cur, n⟩
  | some jsonData =>
    let (next, n) := ReloadData g n jsonData cur
    ⟨none, next, n⟩

/-! ### Fault Injector (chaos.go chaosMiddleware) -/

/-- The fixed status pool: 500 InternalServerError, 502 BadGateway,
503 ServiceUnavailable, 504 GatewayTimeout. -/
def chaosErrors : List Nat := [500, 502, 503, 504]

/-- What the middleware does with one request after its artificial delay:
short-circuit with a synthetic fault, or hand over to the route handler. -/
inductive ChaosOutcome where
  | shortCircuit (status : Nat) (body : Record)
  | next

/-- One intercepted request: the slept duration in milliseconds and the
outcome. -/
structure ChaosStep where
  delayMs : Nat
  outcome : ChaosOutcome

/-- chaosMiddleware with its three pseudo-random draws made explicit:
delayDraw is rand.Intn(450), failDraw is rand.Intn(100), statusDraw is
rand.Intn(len(errors)); the store passes through untouched. -/
def chaosMiddleware (failPercent : Int)
    (delayDraw failDraw statusDraw : Nat) (store : Store) :
    ChaosStep × Store :=
  let delay := 50 + delayDraw
  if (failDraw : Int) < failPercent then
    let status := chaosErrors.getD statusDraw 0
    (⟨delay, .shortCircuit status
        [("error", .str "chaos_error"),
         ("message", .str "Simulated failure from chaos mode"),
         ("status", .num status)]⟩,
      store)
  else
    (⟨delay, .next⟩, store)

/-! ### Stores reachable by sequences of engine operations -/

/-- Whether every record of every collection of the store carries an id
field (of any JSON type). -/
def storeHasIds (s : Store) : Prop :=
  ∀ resource item, item ∈ getCol s resource → (lookupField item "id").isSome

/-- The stores reachable from ingestion by any sequence of engine
operations (with id source g): startup ingestion, hot reload, and the four
mutating handlers. -/
inductive Reachable (g : Nat → String) : Store → Prop where
  | init (data : List (String × JVal)) (n : Nat) :
      Reachable g (normalizeData g n data).1
  | reloaded (s : Store) (data : List (String × JVal)) (n : Nat) :
      Reachable g s → Reachable g (ReloadData g n data s).1
  | created (s : Store) (resource : String) (body : Record) (n : Nat) :
      Reachable g s → Reachable g (handleCreate g n s resource body).2
  | updated (s : Store) (resource pathId : String) (body : Record) :
      Reachable g s → Reachable g (handleUpdate s resource pathId body).2
  | patched (s : Store) (resource pathId : String) (body : Record) :
      Reachable g s → Reachable g (handlePatch s resource pathId body).2
  | deleted (s : Store) (resource pathId : String) :
      Reachable g s → Reachable g (handleDelete s resource pathId).2

/-! ### Association-list lemmas -/

theorem lookupField_setField_self (r : Record) (k : String) (v : JVal) :
    lookupField (setField r k v) k = some v := by
  induction r with
  | nil => simp [setField, lookupField]
  | cons kv rest ih =>
    by_cases h : kv.1 = k
    · simp [setField, lookupField, h]
    · simpa [setField, lookupField, h] using ih

theorem lookupField_setField_ne (r : Record) (k k' : String) (v : JVal)
    (h : k' ≠ k) : lookupField (setField r k v) k' = lookupField r k' := by
  have h2 : k ≠ k' := Ne.symm h
  induction r with
  | nil => simp [setField, lookupField, h2]
  | cons kv rest ih =>
    by_cases hk : kv.1 = k
    · subst hk
      simp [setField, lookupField, h2]
    · by_cases hk' : kv.1 = k'
      · simp [setField, lookupField, hk, hk', h]
      · simpa [setField, lookupField, hk, hk'] using ih

theorem lookupField_setField_isSome (r : Record) (k k' : String) (v : JVal)
    (h : (lookupField r k').isSome) :
    (lookupField (setField r k v) k').isSome := by
  by_cases hk : k' = k
  · subst hk; simp [lookupField_setField_self]
  · rwa [lookupField_setField_ne _ _ _ _ hk]

theorem getCol_setCol_self (s : Store) (key : String) (items : List Record) :
    getCol (setCol s key items) key = items := by
  induction s with
  | nil => simp [setCol, getCol]
  | cons kv rest ih =>
    by_cases h : kv.1 = key
    · simp [setCol, getCol, h]
    · simpa [setCol, getCol, h] using ih

theorem getCol_setCol_ne (s : Store) (key key' : String)
    (items : List Record) (h : key' ≠ key) :
    getCol (setCol s key items) key' = getCol s key' := by
  have h2 : key ≠ key' := Ne.symm h
  induction s with
  | nil => simp [setCol, getCol, h2]
  | cons kv rest ih =>
    by_cases hk : kv.1 = key
    · subst hk
      simp [setCol, getCol, h2]
    · by_cases hk' : kv.1 = key'
      · simp [setCol, getCol, hk, hk', h]
      · simpa [setCol, getCol, hk, hk'] using ih

/-! ### Merge lemmas (PATCH semantics) -/

theorem mergePatch_cons (kv : String × JVal) (rest item : Record) :
    mergePatch (kv :: rest) item =
      mergePatch rest (if kv.1 == "id" then item else setField item kv.1 kv.2) := by
  by_cases h : kv.1 = "id" <;> simp [mergePatch, h]

theorem mergePatch_id (body item : Record) :
    lookupField (mergePatch body item) "id" = lookupField item "id" := by
  induction body generalizing item with
  | nil => rfl
  | cons kv rest ih =>
    rw [mergePatch_cons]
    by_cases h : kv.1 = "id"
    · rw [if_pos (by simp [h])]
      exact ih item
    · rw [if_neg (by simp [h])]
      rw [ih (setField item kv.1 kv.2)]
      exact lookupField_setField_ne item kv.1 "id" kv.2 (Ne.symm h)

theorem mergePatch_not_in_body (body item : Record) (k : String)
    (h : lookupField body k = none) :
    lookupField (mergePatch body item) k = lookupField item k := by
  induction body generalizing item with
  | nil => rfl
  | cons kv rest ih =>
    have hne : kv.1 ≠ k := by
      intro hk
      simp [lookupField, hk] at h
    have hrest : lookupField rest k = none := by
      simpa [lookupField, hne] using h
    rw [mergePatch_cons]
    by_cases hid : kv.1 = "id"
    · rw [if_pos (by simp [hid])]
      exact ih item hrest
    · rw [if_neg (by simp [hid])]
      rw [ih (setField item kv.1 kv.2) hrest]
      exact lookupField_setField_ne item kv.1 k kv.2 (Ne.symm hne)

theorem lookupField_eq_none_of_not_mem (r : Record) (k : String)
    (h : k ∉ r.map Prod.fst) : lookupField r k = none := by
  induction r with
  | nil => rfl
  | cons kv rest ih =>
    have h1 : kv.1 ≠ k := by
      intro he
      exact h (by simp [he])
    have h2 : k ∉ rest.map Prod.fst := fun hx => h (by simp [hx])
    simpa [lookupField, h1] using ih h2

theorem mergePatch_in_body (body item : Record) (k : String) (v : JVal)
    (hnd : (body.map Prod.fst).Nodup) (hk : k ≠ "id")
    (h : lookupField body k = some v) :
    lookupField (mergePatch body item) k = some v := by
  induction body generalizing item with
  | nil => simp [lookupField] at h
  | cons kv rest ih =>
    have hnd' : (rest.map Prod.fst).Nodup := (List.nodup_cons.mp hnd).2
    rw [mergePatch_cons]
    by_cases hhead : kv.1 = k
    · have hv : kv.2 = v := by
        simpa [lookupField, hhead] using h
      have hnotin : lookupField rest k = none := by
        apply lookupField_eq_none_of_not_mem
        rw [← hhead]
        exact (List.nodup_cons.mp hnd).1
      rw [if_neg (by simp [hhead, hk])]
      rw [mergePatch_not_in_body _ _ _ hnotin, hhead, hv]
      exact lookupField_setField_self item k v
    · have hrest : lookupField rest k = some v := by
        simpa [lookupField, hhead] using h
      by_cases hid : kv.1 = "id"
      · rw [if_pos (by simp [hid])]
        exact ih item hnd' hrest
      · rw [if_neg (by simp [hid])]
        exact ih (setField item kv.1 kv.2) hnd' hrest

/-! ### First-match loop lemmas -/

theorem findById_append_first (pathId : String) (pre post : List Record)
    (item : Record) (hpre : ∀ x ∈ pre, matchesId pathId x = false)
    (hit : matchesId pathId item = true) :
    findById pathId (pre ++ item :: post) = some item := by
  induction pre with
  | nil => simp [findById, hit]
  | cons x rest ih =>
    have hx : matchesId pathId x = false := hpre x (by simp)
    have := ih fun y hy => hpre y (by simp [hy])
    simpa [findById, hx] using this

theorem findById_none (pathId : String) (l : List Record)
    (h : ∀ x ∈ l, matchesId pathId x = false) :
    findById pathId l = none := by
  induction l with
  | nil => rfl
  | cons x rest ih =>
    have hx : matchesId pathId x = false := h x (by simp)
    have := ih fun y hy => h y (by simp [hy])
    simpa [findById, hx] using this

theorem deleteList_append_first (pathId : String) (pre post : List Record)
    (item : Record) (hpre : ∀ x ∈ pre, matchesId pathId x = false)
    (hit : matchesId pathId item = true) :
    deleteList pathId (pre ++ item :: post) = some (pre ++ post) := by
  induction pre with
  | nil => simp [deleteList, hit]
  | cons x rest ih =>
    have hx : matchesId pathId x = false := hpre x (by simp)
    have := ih fun y hy => hpre y (by simp [hy])
    simp [deleteList, hx, this]

theorem deleteList_none (pathId : String) (l : List Record)
    (h : ∀ x ∈ l, matchesId pathId x = false) :
    deleteList pathId l = none := by
  induction l with
  | nil => rfl
  | cons x rest ih =>
    have hx : matchesId pathId x = false := h x (by simp)
    have := ih fun y hy => h y (by simp [hy])
    simp [deleteList, hx, this]

theorem patchList_append_first (pathId : String) (body : Record)
    (pre post : List Record) (item : Record)
    (hpre : ∀ x ∈ pre, matchesId pathId x = false)
    (hit : matchesId pathId item = true) :
    patchList pathId body (pre ++ item :: post) =
      some (mergePatch body item, pre ++ mergePatch body item :: post) := by
  induction pre with
  | nil => simp [patchList, hit]
  | cons x rest ih =>
    have hx : matchesId pathId x = false := hpre x (by simp)
    have := ih fun y hy => hpre y (by simp [hy])
    simp [patchList, hx, this]

theorem patchList_none (pathId : String) (body : Record) (l : List Record)
    (h : ∀ x ∈ l, matchesId pathId x = false) :
    patchList pathId body l = none := by
  induction l with
  | nil => rfl
  | cons x rest ih =>
    have hx : matchesId pathId x = false := h x (by simp)
    have := ih fun y hy => h y (by simp [hy])
    simp [patchList, hx, this]

theorem updateList_append_first (pathId : String) (body : Record)
    (pre post : List Record) (item : Record) (itemID : JVal)
    (hpre : ∀ x ∈ pre, matchesId pathId x = false)
    (hid : lookupField item "id" = some itemID)
    (hit : (stringify itemID == pathId) = true) :
    updateList pathId body (pre ++ item :: post) =
      some (setField body "id" itemID,
        pre ++ setField body "id" itemID :: post) := by
  induction pre with
  | nil => simp [updateList, hid, hit]
  | cons x rest ih =>
    have hx : matchesId pathId x = false := hpre x (by simp)
    have := ih fun y hy => hpre y (by simp [hy])
    rw [List.cons_append, updateList]
    cases hlx : lookupField x "id" with
    | none => simp [hlx, this]
    | some xid =>
      have hxid : (stringify xid == pathId) = false := by
        simpa [matchesId, hlx] using hx
      simp [hlx, hxid, this]

theorem updateList_none (pathId : String) (body : Record) (l : List Record)
    (h : ∀ x ∈ l, matchesId pathId x = false) :
    updateList pathId body l = none := by
  induction l with
  | nil => rfl
  | cons x rest ih =>
    have hx : matchesId pathId x = false := h x (by simp)
    have := ih fun y hy => h y (by simp [hy])
    rw [updateList]
    cases hlx : lookupField x "id" with
    | none => simp [this]
    | some xid =>
      have hxid : (stringify xid == pathId) = false := by
        simpa [matchesId, hlx] using hx
      simp [hxid, this]

/-! ### Pagination characterization -/

theorem take_congr_of_length_le {α : Type} (l : List α) (m n : Nat)
    (hm : l.length ≤ m) (hn : l.length ≤ n) : l.take m = l.take n := by
  rw [List.take_of_length_le hm, List.take_of_length_le hn]

theorem wrap64_eq_self (n : Int) (h1 : Int64Min ≤ n) (h2 : n ≤ Int64Max) :
    wrap64 n = n := by
  unfold wrap64
  unfold Int64Min at h1
  unfold Int64Max at h2
  omega

theorem atoiOrZero_bounds (s : String) :
    Int64Min ≤ atoiOrZero s ∧ atoiOrZero s ≤ Int64Max := by
  unfold atoiOrZero
  cases h : parseIntChars s.data with
  | none =>
    show Int64Min ≤ (0 : Int) ∧ (0 : Int) ≤ Int64Max
    unfold Int64Min Int64Max
    omega
  | some n =>
    show Int64Min ≤ clamp64 n ∧ clamp64 n ≤ Int64Max
    unfold clamp64
    by_cases h1 : n > Int64Max
    · rw [if_pos h1]
      unfold Int64Min Int64Max
      omega
    · rw [if_neg h1]
      by_cases h2 : n < Int64Min
      · rw [if_pos h2]
        unfold Int64Min Int64Max
        omega
      · rw [if_neg h2]
        omega

/-- With positive limit and page whose int64 product does not overflow,
the pagination stage is exactly the drop/take slice, and the headers
carry the pre-slice total, page and limit. -/
theorem paginateStage_pos_pos (qs : QueryMap) (items : List Record)
    (hL : atoiOrZero (queryGet qs "_limit" "0") > 0)
    (hP : atoiOrZero (queryGet qs "_page" "0") > 0)
    (hPL : atoiOrZero (queryGet qs "_page" "0") *
      atoiOrZero (queryGet qs "_limit" "0") ≤ Int64Max) :
    paginateStage qs items =
      some ⟨(items.drop ((atoiOrZero (queryGet qs "_page" "0") - 1) *
          atoiOrZero (queryGet qs "_limit" "0")).toNat).take
          (atoiOrZero (queryGet qs "_limit" "0")).toNat,
        some items.length,
        some (atoiOrZero (queryGet qs "_page" "0")),
        some (atoiOrZero (queryGet qs "_limit" "0"))⟩ := by
  simp only [paginateStage]
  set P := atoiOrZero (queryGet qs "_page" "0") with hPdef
  set L := atoiOrZero (queryGet qs "_limit" "0") with hLdef
  rw [if_pos hL, if_pos hP]
  have hmul : (P - 1) * L = P * L - L := by ring
  have hstart0 : 0 ≤ (P - 1) * L := mul_nonneg (by omega) (by omega)
  have hw1 : wrap64 ((P - 1) * L) = (P - 1) * L := by
    apply wrap64_eq_self
    · unfold Int64Min
      omega
    · omega
  rw [hw1]
  by_cases hbig : (P - 1) * L > (items.length : Int)
  · rw [if_pos hbig]
    have hdrop : items.drop ((P - 1) * L).toNat = [] := by
      apply List.drop_eq_nil_of_le
      omega
    rw [hdrop, List.take_nil]
  · rw [if_neg hbig]
    have hw2 : wrap64 ((P - 1) * L + L) = (P - 1) * L + L := by
      apply wrap64_eq_self
      · unfold Int64Min
        omega
      · omega
    rw [hw2]
    by_cases hclamp : (P - 1) * L + L > (items.length : Int)
    · rw [if_pos hclamp, if_pos ⟨hstart0, by omega⟩]
      have heq : (items.drop ((P - 1) * L).toNat).take
          ((items.length : Int) - (P - 1) * L).toNat =
          (items.drop ((P - 1) * L).toNat).take L.toNat := by
        apply take_congr_of_length_le
        · rw [List.length_drop]
          omega
        · rw [List.length_drop]
          omega
      rw [heq]
    · rw [if_neg hclamp, if_pos ⟨hstart0, by omega⟩]
      have heq : ((P - 1) * L + L - (P - 1) * L).toNat = L.toNat := by
        omega
      rw [heq]

/-- With positive limit but page not positive, the slice starts at 0 and
never overflows. -/
theorem paginateStage_pos_nonpos (qs : QueryMap) (items : List Record)
    (hL : atoiOrZero (queryGet qs "_limit" "0") > 0)
    (hP : ¬ atoiOrZero (queryGet qs "_page" "0") > 0) :
    paginateStage qs items =
      some ⟨items.take (atoiOrZero (queryGet qs "_limit" "0")).toNat,
        some items.length,
        some (atoiOrZero (queryGet qs "_page" "0")),
        some (atoiOrZero (queryGet qs "_limit" "0"))⟩ := by
  simp only [paginateStage]
  set P := atoiOrZero (queryGet qs "_page" "0") with hPdef
  set L := atoiOrZero (queryGet qs "_limit" "0") with hLdef
  have hLb := atoiOrZero_bounds (queryGet qs "_limit" "0")
  rw [← hLdef] at hLb
  rw [if_pos hL, if_neg hP]
  have hbig : ¬ ((0 : Int) > (items.length : Int)) := by
    simp
  rw [if_neg hbig]
  have hw : wrap64 (0 + L) = L := by
    rw [zero_add]
    exact wrap64_eq_self L (by unfold Int64Min; omega) hLb.2
  rw [hw]
  by_cases hclamp : L > (items.length : Int)
  · rw [if_pos hclamp, if_pos ⟨le_refl 0, by omega⟩]
    simp only [Int.toNat_zero, List.drop_zero, Int.sub_zero]
    have heq : items.take ((items.length : Int)).toNat =
        items.take L.toNat := by
      apply take_congr_of_length_le
      · omega
      · omega
    rw [heq]
  · rw [if_neg hclamp, if_pos ⟨le_refl 0, by omega⟩]
    simp only [Int.toNat_zero, List.drop_zero, Int.sub_zero]

/-- Without a positive limit there is no pagination and no headers. -/
theorem paginateStage_eq_nonpos (qs : QueryMap) (items : List Record)
    (hL : ¬ atoiOrZero (queryGet qs "_limit" "0") > 0) :
    paginateStage qs items = some ⟨items, none, none, none⟩ := by
  simp only [paginateStage]
  rw [if_neg hL]

/-! ### Preservation of the id-present invariant -/

theorem assignId_isSome (g : Nat → String) (n : Nat) (m : Record) :
    (lookupField (assignId g n m).1 "id").isSome := by
  unfold assignId
  cases h : lookupField m "id" with
  | some v => simp [h]
  | none => simp [lookupField_setField_self]

theorem assignId_of_missing (g : Nat → String) (n : Nat) (m : Record)
    (h : lookupField m "id" = none) :
    lookupField (assignId g n m).1 "id" = some (JVal.str (g n)) := by
  unfold assignId
  rw [h]
  exact lookupField_setField_self m "id" (JVal.str (g n))

theorem normalizeItems_ids (g : Nat → String) :
    ∀ (l : List JVal) (n : Nat) (x : Record),
      x ∈ (normalizeItems g n l).1 → (lookupField x "id").isSome := by
  intro l
  induction l with
  | nil => intro n x hx; simp [normalizeItems] at hx
  | cons v rest ih =>
    intro n x hx
    cases v with
    | obj m =>
      rw [normalizeItems] at hx
      simp only [List.mem_cons] at hx
      rcases hx with hx | hx
      · rw [hx]; exact assignId_isSome g n m
      · exact ih _ x hx
    | str s => exact ih _ x hx
    | num k => exact ih _ x hx
    | boolean b => exact ih _ x hx
    | null => exact ih _ x hx
    | arr xs => exact ih _ x hx

theorem storeHasIds_setCol (s : Store) (key : String) (items : List Record)
    (hs : storeHasIds s)
    (hi : ∀ x ∈ items, (lookupField x "id").isSome) :
    storeHasIds (setCol s key items) := by
  intro resource item hmem
  by_cases h : resource = key
  · subst h
    rw [getCol_setCol_self] at hmem
    exact hi item hmem
  · rw [getCol_setCol_ne _ _ _ _ h] at hmem
    exact hs resource item hmem

theorem ingestInto_ids (g : Nat → String) :
    ∀ (data : List (String × JVal)) (n : Nat) (store : Store),
      storeHasIds store → storeHasIds (ingestInto g n store data).1 := by
  intro data
  induction data with
  | nil => intro n store hs; exact hs
  | cons kv rest ih =>
    intro n store hs
    cases hv : kv.2 with
    | arr v =>
      obtain ⟨key, val⟩ := kv
      simp only at hv
      subst hv
      rw [ingestInto]
      exact ih _ _ (storeHasIds_setCol _ _ _ hs
        (fun x hx => normalizeItems_ids g v n x hx))
    | obj m =>
      obtain ⟨key, val⟩ := kv
      simp only at hv
      subst hv
      rw [ingestInto]
      refine ih _ _ (storeHasIds_setCol _ _ _ hs ?_)
      intro x hx
      simp only [List.mem_singleton] at hx
      rw [hx]
      exact assignId_isSome g n m
    | str s2 =>
      obtain ⟨key, val⟩ := kv
      simp only at hv
      subst hv
      rw [ingestInto]
      · exact ih _ _ hs
      · intro a b; cases b
      · intro a b; cases b
    | num k =>
      obtain ⟨key, val⟩ := kv
      simp only at hv
      subst hv
      rw [ingestInto]
      · exact ih _ _ hs
      · intro a b; cases b
      · intro a b; cases b
    | boolean b =>
      obtain ⟨key, val⟩ := kv
      simp only at hv
      subst hv
      rw [ingestInto]
      · exact ih _ _ hs
      · intro a b; cases b
      · intro a b; cases b
    | null =>
      obtain ⟨key, val⟩ := kv
      simp only at hv
      subst hv
      rw [ingestInto]
      · exact ih _ _ hs
      · intro a b; cases b
      · intro a b; cases b

theorem updateList_preserves_ids (pathId : String) (body : Record) :
    ∀ (l : List Record) (r : Record) (l' : List Record),
      (∀ x ∈ l, (lookupField x "id").isSome) →
      updateList pathId body l = some (r, l') →
      ∀ x ∈ l', (lookupField x "id").isSome := by
  intro l
  induction l with
  | nil => intro r l' _ h; simp [updateList] at h
  | cons item rest ih =>
    intro r l' hl h
    rw [updateList] at h
    cases hlx : lookupField item "id" with
    | some itemID =>
      simp only [hlx] at h
      by_cases hs : (stringify itemID == pathId) = true
      · rw [if_pos hs] at h
        simp only [Option.some_inj, Prod.mk.injEq] at h
        obtain ⟨hr, hl'⟩ := h
        intro x hx
        rw [← hl'] at hx
        simp only [List.mem_cons] at hx
        rcases hx with hx | hx
        · rw [hx]
          simp [lookupField_setField_self]
        · exact hl x (by simp [hx])
      · rw [if_neg hs] at h
        cases hrec : updateList pathId body rest with
        | none => rw [hrec] at h; simp at h
        | some p =>
          rw [hrec] at h
          simp only [Option.map_some', Option.some_inj, Prod.mk.injEq] at h
          obtain ⟨hr, hl'⟩ := h
          intro x hx
          rw [← hl'] at hx
          simp only [List.mem_cons] at hx
          rcases hx with hx | hx
          · rw [hx, hlx]; rfl
          · exact ih p.1 p.2 (fun y hy => hl y (by simp [hy]))
              (by rw [hrec]) x hx
    | none =>
      simp only [hlx] at h
      cases hrec : updateList pathId body rest with
      | none => rw [hrec] at h; simp at h
      | some p =>
        rw [hrec] at h
        simp only [Option.map_some', Option.some_inj, Prod.mk.injEq] at h
        obtain ⟨hr, hl'⟩ := h
        intro x hx
        rw [← hl'] at hx
        simp only [List.mem_cons] at hx
        rcases hx with hx | hx
        · rw [hx]
          exact hl item (by simp)
        · exact ih p.1 p.2 (fun y hy => hl y (by simp [hy]))
            (by rw [hrec]) x hx

theorem patchList_preserves_ids (pathId : String) (body : Record) :
    ∀ (l : List Record) (r : Record) (l' : List Record),
      (∀ x ∈ l, (lookupField x "id").isSome) →
      patchList pathId body l = some (r, l') →
      ∀ x ∈ l', (lookupField x "id").isSome := by
  intro l
  induction l with
  | nil => intro r l' _ h; simp [patchList] at h
  | cons item rest ih =>
    intro r l' hl h
    rw [patchList] at h
    by_cases hm : matchesId pathId item = true
    · rw [if_pos hm] at h
      simp only [Option.some_inj, Prod.mk.injEq] at h
      obtain ⟨hr, hl'⟩ := h
      intro x hx
      rw [← hl'] at hx
      simp only [List.mem_cons] at hx
      rcases hx with hx | hx
      · rw [hx, mergePatch_id]
        exact hl item (by simp)
      · exact hl x (by simp [hx])
    · rw [if_neg hm] at h
      cases hrec : patchList pathId body rest with
      | none => rw [hrec] at h; simp at h
      | some p =>
        rw [hrec] at h
        simp only [Option.map_some', Option.some_inj, Prod.mk.injEq] at h
        obtain ⟨hr, hl'⟩ := h
        intro x hx
        rw [← hl'] at hx
        simp only [List.mem_cons] at hx
        rcases hx with hx | hx
        · rw [hx]
          exact hl item (by simp)
        · exact ih p.1 p.2 (fun y hy => hl y (by simp [hy]))
            (by rw [hrec]) x hx

theorem deleteList_subset (pathId : String) :
    ∀ (l l' : List Record), deleteList pathId l = some l' →
      ∀ x ∈ l', x ∈ l := by
  intro l
  induction l with
  | nil => intro l' h; simp [deleteList] at h
  | cons item rest ih =>
    intro l' h
    rw [deleteList] at h
    by_cases hm : matchesId pathId item = true
    · rw [if_pos hm] at h
      simp only [Option.some_inj] at h
      intro x hx
      rw [← h] at hx
      exact by simp [hx]
    · rw [if_neg hm] at h
      cases hrec : deleteList pathId rest with
      | none => rw [hrec] at h; simp at h
      | some l'' =>
        rw [hrec] at h
        simp only [Option.map_some', Option.some_inj] at h
        intro x hx
        rw [← h] at hx
        simp only [List.mem_cons] at hx
        rcases hx with hx | hx
        · simp [hx]
        · exact by simp [ih l'' hrec x hx]

/-- Every store reachable by any sequence of engine operations satisfies
the id-present invariant. -/
theorem reachable_storeHasIds (g : Nat → String) (s : Store)
    (h : Reachable g s) : storeHasIds s := by
  induction h with
  | init data n =>
    exact ingestInto_ids g data n [] (fun resource item hx => by
      simp [getCol] at hx)
  | reloaded s data n _ _ =>
    exact ingestInto_ids g data n [] (fun resource item hx => by
      simp [getCol] at hx)
  | created s resource body n _ ih =>
    unfold handleCreate
    cases hb : lookupField body "id" with
    | some v =>
      simp only [hb]
      apply storeHasIds_setCol _ _ _ ih
      intro x hx
      rw [List.mem_append] at hx
      rcases hx with hx | hx
      · exact ih resource x hx
      · simp only [List.mem_singleton] at hx
        rw [hx, hb]; rfl
    | none =>
      simp only [hb]
      apply storeHasIds_setCol _ _ _ ih
      intro x hx
      rw [List.mem_append] at hx
      rcases hx with hx | hx
      · exact ih resource x hx
      · simp only [List.mem_singleton] at hx
        rw [hx]
        simp [lookupField_setField_self]
  | updated s resource pathId body _ ih =>
    unfold handleUpdate
    cases hrec : updateList pathId body (getCol s resource) with
    | none => simpa [hrec] using ih
    | some p =>
      simp only [hrec]
      exact storeHasIds_setCol _ _ _ ih
        (updateList_preserves_ids pathId body _ p.1 p.2
          (fun y hy => ih resource y hy) (by rw [hrec]))
  | patched s resource pathId body _ ih =>
    unfold handlePatch
    cases hrec : patchList pathId body (getCol s resource) with
    | none => simpa [hrec] using ih
    | some p =>
      simp only [hrec]
      exact storeHasIds_setCol _ _ _ ih
        (patchList_preserves_ids pathId body _ p.1 p.2
          (fun y hy => ih resource y hy) (by rw [hrec]))
  | deleted s resource pathId _ ih =>
    unfold handleDelete
    cases hrec : deleteList pathId (getCol s resource) with
    | none => simpa [hrec] using ih
    | some items =>
      simp only [hrec]
      exact storeHasIds_setCol _ _ _ ih
        (fun y hy => ih resource y (deleteList_subset pathId _ items hrec y hy))

/-! ## Claims -/

/-- C1: Reload is all-or-nothing.  If the raw bytes do not parse as a JSON
object, the reload fails with a ParseError and the current Store is left
unmodified; if they parse, the Store is replaced entirely by the ingestion
of the new dataset, the old contents contributing nothing. -/
theorem c1_reload_all_or_nothing
    (parse : String → Option (List (String × JVal))) (g : Nat → String)
    (n : Nat) (raw : String) (cur : Store) :
    (parse raw = none →
      (reload parse g n raw cur).err.isSome = true ∧
      (reload parse g n raw cur).store = cur) ∧
    (∀ d, parse raw = some d →
      (reload parse g n raw cur).err = none ∧
      (reload parse g n raw cur).store = (ReloadData g n d cur).1 ∧
      ∀ other : Store,
        (ReloadData g n d cur).1 = (ReloadData g n d other).1) := by
  constructor
  · intro hp
    simp [reload, hp]
  · intro d hp
    refine ⟨?_, ?_, ?_⟩
    · simp [reload, hp]
    · simp [reload, hp]
    · intro other
      rfl

/-- C1 witness: a failing parse leaves a concrete store untouched, and a
succeeding parse replaces it with the ingestion of the new dataset. -/
theorem c1_reload_all_or_nothing_witness :
    ((reload (fun _ => none) (fun k => toString k) 0 "oops"
        [("users", [[("id", JVal.str "1")]])]).err.isSome = true ∧
      (reload (fun _ => none) (fun k => toString k) 0 "oops"
        [("users", [[("id", JVal.str "1")]])]).store =
        [("users", [[("id", JVal.str "1")]])]) ∧
    ((reload (fun _ => some [("posts", JVal.arr [])]) (fun k => toString k) 0
        "raw" [("users", [[("id", JVal.str "1")]])]).err = none ∧
      (reload (fun _ => some [("posts", JVal.arr [])]) (fun k => toString k) 0
        "raw" [("users", [[("id", JVal.str "1")]])]).store =
        (ReloadData (fun k => toString k) 0 [("posts", JVal.arr [])]
          [("users", [[("id", JVal.str "1")]])]).1 ∧
      ∀ other : Store,
        (ReloadData (fun k => toString k) 0 [("posts", JVal.arr [])]
          [("users", [[("id", JVal.str "1")]])]).1 =
        (ReloadData (fun k => toString k) 0 [("posts", JVal.arr [])] other).1) :=
  ⟨(c1_reload_all_or_nothing (fun _ => none) (fun k => toString k) 0 "oops"
      [("users", [[("id", JVal.str "1")]])]).1 rfl,
    (c1_reload_all_or_nothing (fun _ => some [("posts", JVal.arr [])])
      (fun k => toString k) 0 "raw"
      [("users", [[("id", JVal.str "1")]])]).2 [("posts", JVal.arr [])] rfl⟩

/-- C2 counterexample: the claim fails at in-scope inputs because the
source computes (page-1)*limit and start+limit in Go 64-bit int, which
wraps: at _page=4611686018427387905, _limit=4 the start (P-1)L = 2^64
wraps to 0 and the first record is returned where the claim demands an
empty body; at _page=9223372036854775807, _limit=2 the start wraps to -4
and items[start:end] panics on a negative slice index. -/
theorem c2_pagination_bound_counterexample :
    handleGetAll [("users", [[("id", JVal.str "a")]])] "users"
        [("_page", "4611686018427387905"), ("_limit", "4")] =
      some ⟨[[("id", JVal.str "a")]], some 1,
        some 4611686018427387905, some 4⟩ ∧
    ([[("id", JVal.str "a")]] : List Record) ≠ [] ∧
    handleGetAll [("users", [[("id", JVal.str "a")]])] "users"
        [("_page", "9223372036854775807"), ("_limit", "2")] = none := by
  refine ⟨rfl, by simp, rfl⟩

/-- C2 (amended): Pagination bound under int64-safe inputs.  For parsed
_limit L > 0 and _page P > 0 with P*L within the 64-bit range, the
response is the filtered/sorted sequence sliced at [(P-1)L, min(PL,total))
with total-count, page and limit headers carrying the pre-slice values;
with P not positive the slice starts at 0 (never overflowing); and a
start index at or past the sequence length gives an empty body.  When
P*L exceeds the int64 range the wraparound returns a wrong slice or
panics, as the counterexample shows. -/
theorem c2_pagination_bound_amended (store : Store) (resource : String)
    (qs : QueryMap)
    (hL : atoiOrZero (queryGet qs "_limit" "0") > 0) :
    (atoiOrZero (queryGet qs "_page" "0") > 0 →
      atoiOrZero (queryGet qs "_page" "0") *
        atoiOrZero (queryGet qs "_limit" "0") ≤ Int64Max →
      handleGetAll store resource qs =
        some ⟨((sortStage qs (filterStage qs (searchStage (queryGet qs "q" "")
            (getCol store resource)))).drop
          ((atoiOrZero (queryGet qs "_page" "0") - 1) *
            atoiOrZero (queryGet qs "_limit" "0")).toNat).take
          (atoiOrZero (queryGet qs "_limit" "0")).toNat,
          some (sortStage qs (filterStage qs (searchStage (queryGet qs "q" "")
            (getCol store resource)))).length,
          some (atoiOrZero (queryGet qs "_page" "0")),
          some (atoiOrZero (queryGet qs "_limit" "0"))⟩) ∧
    (¬ atoiOrZero (queryGet qs "_page" "0") > 0 →
      handleGetAll store resource qs =
        some ⟨(sortStage qs (filterStage qs (searchStage (queryGet qs "q" "")
            (getCol store resource)))).take
          (atoiOrZero (queryGet qs "_limit" "0")).toNat,
          some (sortStage qs (filterStage qs (searchStage (queryGet qs "q" "")
            (getCol store resource)))).length,
          some (atoiOrZero (queryGet qs "_page" "0")),
          some (atoiOrZero (queryGet qs "_limit" "0"))⟩) ∧
    (atoiOrZero (queryGet qs "_page" "0") > 0 →
      atoiOrZero (queryGet qs "_page" "0") *
        atoiOrZero (queryGet qs "_limit" "0") ≤ Int64Max →
      (sortStage qs (filterStage qs (searchStage (queryGet qs "q" "")
          (getCol store resource)))).length ≤
        ((atoiOrZero (queryGet qs "_page" "0") - 1) *
          atoiOrZero (queryGet qs "_limit" "0")).toNat →
      handleGetAll store resource qs =
        some ⟨[],
          some (sortStage qs (filterStage qs (searchStage (queryGet qs "q" "")
            (getCol store resource)))).length,
          some (atoiOrZero (queryGet qs "_page" "0")),
          some (atoiOrZero (queryGet qs "_limit" "0"))⟩) := by
  have hga : handleGetAll store resource qs =
      paginateStage qs (sortStage qs (filterStage qs
        (searchStage (queryGet qs "q" "") (getCol store resource)))) := rfl
  refine ⟨?_, ?_, ?_⟩
  · intro hP hPL
    rw [hga, paginateStage_pos_pos qs _ hL hP hPL]
  · intro hP
    rw [hga, paginateStage_pos_nonpos qs _ hL hP]
  · intro hP hPL hlen
    rw [hga, paginateStage_pos_pos qs _ hL hP hPL,
      List.drop_eq_nil_of_le hlen, List.take_nil]

/-- C2 witness: three records, _page=2 and _limit=1 give the middle
record with total-count 3, page 2 and limit 1. -/
theorem c2_pagination_bound_amended_witness :
    handleGetAll
        [("users", [[("id", JVal.str "a")], [("id", JVal.str "b")],
          [("id", JVal.str "c")]])] "users"
        [("_page", "2"), ("_limit", "1")] =
      some ⟨[[("id", JVal.str "b")]], some 3, some 2, some 1⟩ := by
  obtain ⟨h1, h2, h3⟩ := c2_pagination_bound_amended
    [("users", [[("id", JVal.str "a")], [("id", JVal.str "b")],
      [("id", JVal.str "c")]])] "users"
    [("_page", "2"), ("_limit", "1")] (by decide)
  rw [h1 (by decide) (by decide)]
  rfl

/-- C5: Search totality.  Under a non-empty q=term the List response is
the collection filtered by the search predicate, and a record passes the
predicate iff at least one of its fields' stringified values contains the
term case-insensitively; an absent or empty q leaves the sequence
unchanged. -/
theorem c5_search_totality (store : Store) (resource : String) (q : String) :
    (q ≠ "" →
      handleGetAll store resource [("q", q)] =
        some ⟨(getCol store resource).filter
          (recordMatchesSearch (lowerChars q)), none, none, none⟩ ∧
      ∀ r : Record,
        (r ∈ (getCol store resource).filter
            (recordMatchesSearch (lowerChars q)) ↔
          r ∈ getCol store resource ∧
            ∃ kv ∈ r, containsChars (lowerChars (stringify kv.2))
              (lowerChars q) = true)) ∧
    handleGetAll store resource [("q", "")] =
      some ⟨getCol store resource, none, none, none⟩ ∧
    handleGetAll store resource [] =
      some ⟨getCol store resource, none, none, none⟩ := by
  refine ⟨?_, rfl, rfl⟩
  intro hq
  have hqf : (q == "") = false := by
    rw [beq_eq_false_iff_ne]
    exact hq
  constructor
  · have hresp : handleGetAll store resource [("q", q)] =
        some ⟨searchStage q (getCol store resource), none, none, none⟩ := rfl
    rw [hresp, searchStage, if_neg (by simp [hqf])]
  · intro r
    rw [List.mem_filter]
    constructor
    · rintro ⟨hmem, hmatch⟩
      refine ⟨hmem, ?_⟩
      rw [recordMatchesSearch, List.any_eq_true] at hmatch
      obtain ⟨kv, hkv, hf⟩ := hmatch
      exact ⟨kv, hkv, hf⟩
    · rintro ⟨hmem, kv, hkv, hc⟩
      refine ⟨hmem, ?_⟩
      rw [recordMatchesSearch, List.any_eq_true]
      exact ⟨kv, hkv, hc⟩

/-- C5 witness: searching AN returns exactly the record with name Ana
(case insensitively), and the record with name Bob fails the predicate. -/
theorem c5_search_totality_witness :
    handleGetAll
        [("users", [[("name", JVal.str "Ana"), ("id", JVal.str "1")],
          [("name", JVal.str "Bob"), ("id", JVal.str "2")]])]
        "users" [("q", "AN")] =
      some ⟨[[("name", JVal.str "Ana"), ("id", JVal.str "1")]],
        none, none, none⟩ ∧
    ([("name", JVal.str "Ana"), ("id", JVal.str "1")] ∈
      (getCol [("users", [[("name", JVal.str "Ana"), ("id", JVal.str "1")],
          [("name", JVal.str "Bob"), ("id", JVal.str "2")]])] "users").filter
        (recordMatchesSearch (lowerChars "AN"))) ∧
    ¬ ([("name", JVal.str "Bob"), ("id", JVal.str "2")] ∈
      (getCol [("users", [[("name", JVal.str "Ana"), ("id", JVal.str "1")],
          [("name", JVal.str "Bob"), ("id", JVal.str "2")]])] "users").filter
        (recordMatchesSearch (lowerChars "AN"))) := by
  obtain ⟨h1, h2⟩ := (c5_search_totality
    [("users", [[("name", JVal.str "Ana"), ("id", JVal.str "1")],
      [("name", JVal.str "Bob"), ("id", JVal.str "2")]])]
    "users" "AN").1 (by decide)
  refine ⟨?_, ?_, ?_⟩
  · rw [h1]
    rfl
  · rw [h2 [("name", JVal.str "Ana"), ("id", JVal.str "1")]]
    refine ⟨by simp [getCol], ⟨("name", JVal.str "Ana"), by simp, by rfl⟩⟩
  · rw [h2 [("name", JVal.str "Bob"), ("id", JVal.str "2")]]
    rintro ⟨-, kv, hkv, hc⟩
    simp only [List.mem_cons, List.mem_singleton] at hkv
    rcases hkv with hkv | hkv | hkv
    · rw [hkv] at hc
      exact absurd hc (by decide)
    · rw [hkv] at hc
      exact absurd hc (by decide)
    · simp at hkv

/-- C3: Patch is a merge.  When PATCH locates the record (the first one
whose id matches the path id), the stored record is the old one with each
non-id key of the parsed body overwritten (added if new), every key not in
the body unchanged, and the id keeping its pre-existing value. -/
theorem c3_patch_is_merge (store : Store) (resource pathId : String)
    (body : Record) (pre post : List Record) (item : Record)
    (hcol : getCol store resource = pre ++ item :: post)
    (hpre : ∀ x ∈ pre, matchesId pathId x = false)
    (hit : matchesId pathId item = true)
    (hnd : (body.map Prod.fst).Nodup) :
    handlePatch store resource pathId body =
      (.ok (mergePatch body item),
        setCol store resource (pre ++ mergePatch body item :: post)) ∧
    (∀ k v, k ≠ "id" → lookupField body k = some v →
      lookupField (mergePatch body item) k = some v) ∧
    (∀ k, lookupField body k = none →
      lookupField (mergePatch body item) k = lookupField item k) ∧
    lookupField (mergePatch body item) "id" = lookupField item "id" := by
  refine ⟨?_, ?_, ?_, mergePatch_id body item⟩
  · unfold handlePatch
    rw [hcol, patchList_append_first pathId body pre post item hpre hit]
  · intro k v hk hv
    exact mergePatch_in_body body item k v hnd hk hv
  · intro k hk
    exact mergePatch_not_in_body body item k hk

/-- C3 witness: patching age 30 into Ana keeps name and id and adds age. -/
theorem c3_patch_is_merge_witness :
    handlePatch [("users", [[("id", JVal.str "1"), ("name", JVal.str "Ana")]])]
        "users" "1" [("age", JVal.num 30)] =
      (.ok [("id", JVal.str "1"), ("name", JVal.str "Ana"),
          ("age", JVal.num 30)],
        [("users", [[("id", JVal.str "1"), ("name", JVal.str "Ana"),
          ("age", JVal.num 30)]])]) ∧
    lookupField (mergePatch [("age", JVal.num 30)]
      [("id", JVal.str "1"), ("name", JVal.str "Ana")]) "age" =
      some (JVal.num 30) ∧
    lookupField (mergePatch [("age", JVal.num 30)]
      [("id", JVal.str "1"), ("name", JVal.str "Ana")]) "name" =
      some (JVal.str "Ana") ∧
    lookupField (mergePatch [("age", JVal.num 30)]
      [("id", JVal.str "1"), ("name", JVal.str "Ana")]) "id" =
      some (JVal.str "1") := by
  obtain ⟨h1, h2, h3, h4⟩ := c3_patch_is_merge
    [("users", [[("id", JVal.str "1"), ("name", JVal.str "Ana")]])]
    "users" "1" [("age", JVal.num 30)] []
    [] [("id", JVal.str "1"), ("name", JVal.str "Ana")]
    rfl (by simp) rfl (by simp)
  refine ⟨?_, ?_, ?_, ?_⟩
  · rw [h1]
    rfl
  · exact h2 "age" (JVal.num 30) (by decide) rfl
  · rw [h3 "name" rfl]
    rfl
  · rw [h4]
    rfl

/-- C4: Replace preserves id.  PUT on the located record stores exactly
the parsed body with the id field forced back to the stored record's id;
any client-supplied id in the body is ignored and no other field of the
old record survives. -/
theorem c4_replace_preserves_id (store : Store) (resource pathId : String)
    (body : Record) (pre post : List Record) (item : Record) (itemID : JVal)
    (hcol : getCol store resource = pre ++ item :: post)
    (hpre : ∀ x ∈ pre, matchesId pathId x = false)
    (hid : lookupField item "id" = some itemID)
    (hs : (stringify itemID == pathId) = true) :
    handleUpdate store resource pathId body =
      (.ok (setField body "id" itemID),
        setCol store resource (pre ++ setField body "id" itemID :: post)) ∧
    lookupField (setField body "id" itemID) "id" = lookupField item "id" ∧
    (∀ k, k ≠ "id" →
      lookupField (setField body "id" itemID) k = lookupField body k) := by
  refine ⟨?_, ?_, ?_⟩
  · unfold handleUpdate
    rw [hcol, updateList_append_first pathId body pre post item itemID hpre hid hs]
  · rw [hid]
    exact lookupField_setField_self body "id" itemID
  · intro k hk
    exact lookupField_setField_ne body "id" k itemID hk

/-- C4 witness: a PUT body carrying id 999 is stored with the original
id 1, its other fields replacing the old record's fields entirely. -/
theorem c4_replace_preserves_id_witness :
    handleUpdate [("users", [[("id", JVal.str "1"), ("name", JVal.str "Ana")]])]
        "users" "1" [("id", JVal.str "999"), ("name", JVal.str "Bob")] =
      (.ok [("id", JVal.str "1"), ("name", JVal.str "Bob")],
        [("users", [[("id", JVal.str "1"), ("name", JVal.str "Bob")]])]) ∧
    lookupField (setField [("id", JVal.str "999"), ("name", JVal.str "Bob")]
        "id" (JVal.str "1")) "id" =
      lookupField [("id", JVal.str "1"), ("name", JVal.str "Ana")] "id" := by
  obtain ⟨h1, h2, h3⟩ := c4_replace_preserves_id
    [("users", [[("id", JVal.str "1"), ("name", JVal.str "Ana")]])]
    "users" "1" [("id", JVal.str "999"), ("name", JVal.str "Bob")] []
    [] [("id", JVal.str "1"), ("name", JVal.str "Ana")] (JVal.str "1")
    rfl (by simp) rfl rfl
  refine ⟨?_, h2⟩
  rw [h1]
  rfl

/-- C6 counterexample: with two records sharing id 1, DELETE removes only
the first, so the subsequent GET finds the second instead of 404. -/
theorem c6_delete_then_get_counterexample :
    (handleDelete [("users", [[("id", JVal.str "1"), ("n", JVal.num 1)],
        [("id", JVal.str "1"), ("n", JVal.num 2)]])] "users" "1").1 =
      HandlerResp.noContent ∧
    handleGetByID (handleDelete [("users",
        [[("id", JVal.str "1"), ("n", JVal.num 1)],
         [("id", JVal.str "1"), ("n", JVal.num 2)]])] "users" "1").2
      "users" "1" = HandlerResp.ok [("id", JVal.str "1"), ("n", JVal.num 2)] ∧
    HandlerResp.ok [("id", JVal.str "1"), ("n", JVal.num 2)] ≠
      HandlerResp.notFound "users" "1" := by
  refine ⟨rfl, rfl, ?_⟩
  intro h
  cases h

/-- C6 (amended): for every record that is the only one in its collection
whose id stringifies to the path id, DELETE returns NoContent and removes
exactly that record preserving the order of the rest; the subsequent GET
returns NotFound and a second DELETE returns NotFound leaving the store
unchanged.  In general DELETE removes the first matching record. -/
theorem c6_delete_then_get (store : Store) (resource pathId : String)
    (pre post : List Record) (item : Record)
    (hcol : getCol store resource = pre ++ item :: post)
    (hpre : ∀ x ∈ pre, matchesId pathId x = false)
    (hit : matchesId pathId item = true)
    (hpost : ∀ x ∈ post, matchesId pathId x = false) :
    handleDelete store resource pathId =
      (.noContent, setCol store resource (pre ++ post)) ∧
    handleGetByID (handleDelete store resource pathId).2 resource pathId =
      .notFound resource pathId ∧
    handleDelete (handleDelete store resource pathId).2 resource pathId =
      (.notFound resource pathId, (handleDelete store resource pathId).2) := by
  have hdel : deleteList pathId (getCol store resource) = some (pre ++ post) := by
    rw [hcol]
    exact deleteList_append_first pathId pre post item hpre hit
  have h1 : handleDelete store resource pathId =
      (.noContent, setCol store resource (pre ++ post)) := by
    unfold handleDelete
    rw [hdel]
  have hcol2 : getCol (handleDelete store resource pathId).2 resource =
      pre ++ post := by
    rw [h1]
    exact getCol_setCol_self store resource (pre ++ post)
  have hnomatch : ∀ x ∈ pre ++ post, matchesId pathId x = false := by
    intro x hx
    rw [List.mem_append] at hx
    rcases hx with hx | hx
    · exact hpre x hx
    · exact hpost x hx
  refine ⟨h1, ?_, ?_⟩
  · unfold handleGetByID
    rw [hcol2, findById_none pathId _ hnomatch]
  · set s2 := (handleDelete store resource pathId).2 with hs2
    have hdel2 : deleteList pathId (getCol s2 resource) = none := by
      rw [hcol2]
      exact deleteList_none pathId _ hnomatch
    unfold handleDelete
    rw [hdel2]

/-- C6 witness: deleting the only record with id 1 yields NoContent,
preserves the other record, and both the GET and the second DELETE
return NotFound. -/
theorem c6_delete_then_get_witness :
    handleDelete [("users", [[("id", JVal.str "1")], [("id", JVal.str "2")]])]
        "users" "1" =
      (.noContent, [("users", [[("id", JVal.str "2")]])]) ∧
    handleGetByID (handleDelete [("users", [[("id", JVal.str "1")],
        [("id", JVal.str "2")]])] "users" "1").2 "users" "1" =
      HandlerResp.notFound "users" "1" ∧
    handleDelete (handleDelete [("users", [[("id", JVal.str "1")],
        [("id", JVal.str "2")]])] "users" "1").2 "users" "1" =
      (HandlerResp.notFound "users" "1",
        (handleDelete [("users", [[("id", JVal.str "1")],
          [("id", JVal.str "2")]])] "users" "1").2) := by
  obtain ⟨h1, h2, h3⟩ := c6_delete_then_get
    [("users", [[("id", JVal.str "1")], [("id", JVal.str "2")]])] "users" "1"
    [] [[("id", JVal.str "2")]] [("id", JVal.str "1")]
    rfl (by simp) rfl (by decide)
  refine ⟨?_, h2, h3⟩
  rw [h1]
  rfl

/-- C8: Get-by-id is a first-match linear scan: GET returns the first
record in insertion order whose id stringifies equal to the path
parameter (and PATCH merges into that same first match); when none
matches, the result is a NotFound error naming the resource and id. -/
theorem c8_get_by_id_first_match (store : Store) (resource pathId : String)
    (body : Record) :
    (∀ pre item post, getCol store resource = pre ++ item :: post →
      (∀ x ∈ pre, matchesId pathId x = false) →
      matchesId pathId item = true →
      handleGetByID store resource pathId = .ok item ∧
      handlePatch store resource pathId body =
        (.ok (mergePatch body item),
          setCol store resource (pre ++ mergePatch body item :: post))) ∧
    ((∀ x ∈ getCol store resource, matchesId pathId x = false) →
      handleGetByID store resource pathId = .notFound resource pathId) := by
  constructor
  · intro pre item post hcol hpre hit
    constructor
    · unfold handleGetByID
      rw [hcol, findById_append_first pathId pre post item hpre hit]
    · unfold handlePatch
      rw [hcol, patchList_append_first pathId body pre post item hpre hit]
  · intro hnone
    unfold handleGetByID
    rw [findById_none pathId _ hnone]

/-- C8 witness: with two records sharing id 1, GET and PATCH operate on
the first; a missing id yields NotFound naming resource and id. -/
theorem c8_get_by_id_first_match_witness :
    handleGetByID [("users", [[("id", JVal.str "1"), ("n", JVal.num 1)],
        [("id", JVal.str "1"), ("n", JVal.num 2)]])] "users" "1" =
      HandlerResp.ok [("id", JVal.str "1"), ("n", JVal.num 1)] ∧
    handlePatch [("users", [[("id", JVal.str "1"), ("n", JVal.num 1)],
        [("id", JVal.str "1"), ("n", JVal.num 2)]])] "users" "1"
        [("x", JVal.num 7)] =
      (.ok [("id", JVal.str "1"), ("n", JVal.num 1), ("x", JVal.num 7)],
        [("users", [[("id", JVal.str "1"), ("n", JVal.num 1),
          ("x", JVal.num 7)], [("id", JVal.str "1"), ("n", JVal.num 2)]])]) ∧
    handleGetByID [("users", [[("id", JVal.str "1"), ("n", JVal.num 1)],
        [("id", JVal.str "1"), ("n", JVal.num 2)]])] "users" "9" =
      HandlerResp.notFound "users" "9" := by
  obtain ⟨hfirst, hnone⟩ := c8_get_by_id_first_match
    [("users", [[("id", JVal.str "1"), ("n", JVal.num 1)],
      [("id", JVal.str "1"), ("n", JVal.num 2)]])] "users" "1"
    [("x", JVal.num 7)]
  obtain ⟨hget, hpatch⟩ := hfirst [] [("id", JVal.str "1"), ("n", JVal.num 1)]
    [[("id", JVal.str "1"), ("n", JVal.num 2)]] rfl (by simp) rfl
  refine ⟨hget, ?_, ?_⟩
  · rw [hpatch]
    rfl
  · exact (c8_get_by_id_first_match
      [("users", [[("id", JVal.str "1"), ("n", JVal.num 1)],
        [("id", JVal.str "1"), ("n", JVal.num 2)]])] "users" "9"
      [("x", JVal.num 7)]).2 (by decide)

/-- C7 counterexample: a POST body supplying a numeric id is stored
as-is, so a reachable store holds a record whose id is not a string. -/
theorem c7_id_invariant_counterexample :
    (normalizeData (fun _ => "u") 0 [("users", JVal.arr [])]).1 =
      [("users", [])] ∧
    getCol (handleCreate (fun _ => "u") 0 [("users", [])] "users"
        [("id", JVal.num 5)]).2 "users" = [[("id", JVal.num 5)]] ∧
    lookupField [("id", JVal.num 5)] "id" = some (JVal.num 5) ∧
    JVal.isStr (JVal.num 5) = false :=
  ⟨rfl, rfl, rfl, rfl⟩

/-- C7 (amended): every record in every reachable store has an id field
present; ids generated by ingestion or POST for objects lacking one are
strings; but a dataset- or client-supplied id keeps its original JSON
type, which need not be a string. -/
theorem c7_id_invariant_amended (g : Nat → String) :
    (∀ s : Store, Reachable g s → storeHasIds s) ∧
    (∀ (m : Record) (n : Nat), lookupField m "id" = none →
      lookupField (assignId g n m).1 "id" = some (JVal.str (g n))) ∧
    (∀ (store : Store) (resource : String) (body : Record) (n : Nat),
      lookupField body "id" = none →
      getCol (handleCreate g n store resource body).2 resource =
        getCol store resource ++ [setField body "id" (JVal.str (g n))] ∧
      lookupField (setField body "id" (JVal.str (g n))) "id" =
        some (JVal.str (g n))) := by
  refine ⟨fun s h => reachable_storeHasIds g s h, ?_, ?_⟩
  · intro m n hm
    exact assignId_of_missing g n m hm
  · intro store resource body n hb
    constructor
    · have hstep : handleCreate g n store resource body =
          ((.created (setField body "id" (JVal.str (g n))), n + 1),
            setCol store resource (getCol store resource ++
              [setField body "id" (JVal.str (g n))])) := by
        unfold handleCreate
        rw [hb]
      rw [hstep]
      exact getCol_setCol_self store resource _
    · exact lookupField_setField_self body "id" (JVal.str (g n))

/-- C7 witness: an ingested object with no id gets the generated string
id, and a POST body with no id is stored with the generated string id. -/
theorem c7_id_invariant_amended_witness :
    storeHasIds (normalizeData (fun _ => "u") 0
      [("users", JVal.arr [JVal.obj []])]).1 ∧
    lookupField (assignId (fun _ => "u") 3 [("name", JVal.str "Ana")]).1
      "id" = some (JVal.str "u") ∧
    getCol (handleCreate (fun _ => "u") 1 [("users", [])] "users"
      [("name", JVal.str "Bob")]).2 "users" =
      [[("name", JVal.str "Bob"), ("id", JVal.str "u")]] := by
  obtain ⟨h1, h2, h3⟩ := c7_id_invariant_amended (fun _ => "u")
  refine ⟨h1 _ (Reachable.init [("users", JVal.arr [JVal.obj []])] 0),
    h2 [("name", JVal.str "Ana")] 3 rfl, ?_⟩
  rw [(h3 [("users", [])] "users" [("name", JVal.str "Bob")] 1 rfl).1]
  rfl

/-- C10: List is read-only: handling GET /resource leaves the store (and
in particular the requested collection) unchanged — the handler works on
a copy of the record sequence through the search, filter, sort and
paginate stages. -/
theorem c10_list_read_only (store : Store) (resource : String)
    (qs : QueryMap) :
    (handleGetAllStep store resource qs).2 = store ∧
    getCol (handleGetAllStep store resource qs).2 resource =
      getCol store resource ∧
    (handleGetAllStep store resource qs).1 =
      paginateStage qs (sortStage qs (filterStage qs (searchStage
        (queryGet qs "q" "") (getCol store resource)))) :=
  ⟨rfl, rfl, rfl⟩

/-- C9: Fault injector contract: on every intercepted request the slept
duration 50+rand.Intn(450) lies within [50ms, 500ms] (uniform over the
draw space); with probability failPercent/100 (exactly failPercent of the
100 equiprobable draws) the request is short-circuited with a status
drawn from exactly the set 500, 502, 503, 504 and a structured JSON body
identifying a synthetic fault; otherwise it passes through unchanged; and
in either case the store is untouched. -/
theorem c9_chaos_contract (p : Int) (delayDraw failDraw statusDraw : Nat)
    (store : Store) (hd : delayDraw < 450) (hstat : statusDraw < 4) :
    (chaosMiddleware p delayDraw failDraw statusDraw store).2 = store ∧
    50 ≤ (chaosMiddleware p delayDraw failDraw statusDraw store).1.delayMs ∧
    (chaosMiddleware p delayDraw failDraw statusDraw store).1.delayMs ≤ 500 ∧
    ((failDraw : Int) < p →
      (chaosMiddleware p delayDraw failDraw statusDraw store).1.outcome =
        ChaosOutcome.shortCircuit (chaosErrors.getD statusDraw 0)
          [("error", JVal.str "chaos_error"),
           ("message", JVal.str "Simulated failure from chaos mode"),
           ("status", JVal.num (chaosErrors.getD statusDraw 0))] ∧
      chaosErrors.getD statusDraw 0 ∈ ({500, 502, 503, 504} : Finset Nat)) ∧
    (¬ (failDraw : Int) < p →
      (chaosMiddleware p delayDraw failDraw statusDraw store).1.outcome =
        ChaosOutcome.next) ∧
    (∀ q : Nat, q ≤ 100 →
      ((Finset.range 100).filter (fun f : Nat => (f : Int) < (q : Int))).card = q) ∧
    (∀ st ∈ ({500, 502, 503, 504} : Finset Nat),
      ∃ k, k < 4 ∧ chaosErrors.getD k 0 = st) := by
  have hdelay : (chaosMiddleware p delayDraw failDraw statusDraw
      store).1.delayMs = 50 + delayDraw := by
    by_cases hf : (failDraw : Int) < p <;> simp [chaosMiddleware, hf]
  refine ⟨?_, ?_, ?_, ?_, ?_, ?_, ?_⟩
  · by_cases hf : (failDraw : Int) < p <;> simp [chaosMiddleware, hf]
  · rw [hdelay]; omega
  · rw [hdelay]; omega
  · intro hf
    refine ⟨by simp [chaosMiddleware, hf], ?_⟩
    interval_cases statusDraw <;> decide
  · intro hf
    simp [chaosMiddleware, hf]
  · intro q hq
    have hset : (Finset.range 100).filter (fun f : Nat => (f : Int) < (q : Int)) =
        Finset.range q := by
      ext a
      simp only [Finset.mem_filter, Finset.mem_range]
      omega
    rw [hset, Finset.card_range]
  · intro st hst
    fin_cases hst
    · exact ⟨0, by omega, rfl⟩
    · exact ⟨1, by omega, rfl⟩
    · exact ⟨2, by omega, rfl⟩
    · exact ⟨3, by omega, rfl⟩

/-- C9 witness: with failPercent 50, draw 10 short-circuits with 502 and
the chaos body, draw 90 passes through; the store is untouched. -/
theorem c9_chaos_contract_witness :
    (chaosMiddleware 50 7 10 1 [("users", [])]).2 = [("users", [])] ∧
    (chaosMiddleware 50 7 10 1 [("users", [])]).1.outcome =
      ChaosOutcome.shortCircuit 502
        [("error", JVal.str "chaos_error"),
         ("message", JVal.str "Simulated failure from chaos mode"),
         ("status", JVal.num 502)] ∧
    (chaosMiddleware 50 7 90 1 [("users", [])]).1.outcome =
      ChaosOutcome.next ∧
    (chaosMiddleware 50 7 90 1 [("users", [])]).2 = [("users", [])] := by
  obtain ⟨ha1, ha2, ha3, ha4, ha5, ha6, ha7⟩ :=
    c9_chaos_contract 50 7 10 1 [("users", [])] (by omega) (by omega)
  obtain ⟨hb1, hb2, hb3, hb4, hb5, hb6, hb7⟩ :=
    c9_chaos_contract 50 7 90 1 [("users", [])] (by omega) (by omega)
  refine ⟨ha1, ?_, hb5 (by decide), hb1⟩
  rw [(ha4 (by decide)).1]
  rfl

end InstaMock
